import Mathlib

/-!
Verification of the notes-app core logic (`src/notes_frontend/src/App.js`).

The app's logic is embedded shallowly:

* a `Note` record mirrors the `Note` typedef (timestamps as `Nat`,
  milliseconds since epoch);
* the store operations `createNote`, `updateNote`, `deleteNote` and the
  derived view `filteredNotes` are direct translations of the functions of
  the same names (and of the `filtered` memo) in `App.js`;
* `handleDelete` embeds the selection policy of `App.handleDelete`;
* `toggleTheme` embeds the toggle in `useTheme`;
* `loadRaw`/`saveEffect` embed the read/write paths of `useLocalStorage`,
  with the browser storage modelled as a partial map `String → Option String`
  and the platform JSON codec modelled explicitly (it is a browser builtin,
  not part of the repository's sources).

JavaScript strings are sequences of code units; they are embedded as
`List Char`, with `jsTrim`, `jsToLower` and `jsIncludes` modelling
`String.prototype.trim`, `toLowerCase` and `includes`.  Nondeterministic
inputs of the environment (the generated id from `uid()`, the clock value
`Date.now()`, success of a storage write) are passed as explicit parameters.
-/

/-- The `Note` record of `App.js`:
`{ id: string; title: string; content: string; updatedAt: number; createdAt: number }`. -/
structure Note where
  id : String
  title : String
  content : String
  createdAt : Nat
  updatedAt : Nat
deriving DecidableEq, Repr

/-- A partial update of a note, any subset of `title`/`content`
(the `patch` argument of `updateNote`; per spec §4.1 a patch carries only
these two fields). -/
structure Patch where
  title : Option String := none
  content : Option String := none
deriving DecidableEq, Repr

/-- `createNote` (App.js lines 48-53): builds
`{ id: uid(), title: 'Untitled', content: '', createdAt: now, updatedAt: now }`,
prepends it (`[n, ...prev]`) and returns the new id.  The generated id and
the clock reading are environment inputs, passed as parameters. -/
def createNote (notes : List Note) (newId : String) (now : Nat) : String × List Note :=
  let n : Note := { id := newId, title := "Untitled", content := "", createdAt := now, updatedAt := now }
  (n.id, n :: notes)

/-- The object merge `{ ...n, ...patch, updatedAt: Date.now() }` of
`updateNote`: patch fields override, then `updatedAt` is set to `now`. -/
def applyPatch (n : Note) (patch : Patch) (now : Nat) : Note :=
  { n with
    title := patch.title.getD n.title
    content := patch.content.getD n.content
    updatedAt := now }

/-- `updateNote` (App.js lines 55-59):
`prev.map((n) => (n.id === id ? { ...n, ...patch, updatedAt: Date.now() } : n))`. -/
def updateNote (notes : List Note) (id : String) (patch : Patch) (now : Nat) : List Note :=
  notes.map fun n => if n.id = id then applyPatch n patch now else n

/-- `deleteNote` (App.js lines 61-63): `prev.filter((n) => n.id !== id)`. -/
def deleteNote (notes : List Note) (id : String) : List Note :=
  notes.filter fun n => n.id != id

/-- JavaScript `String.prototype.trim`: drop whitespace from both ends. -/
def jsTrim (s : List Char) : List Char :=
  ((s.dropWhile Char.isWhitespace).reverse.dropWhile Char.isWhitespace).reverse

/-- JavaScript `String.prototype.toLowerCase` (per code unit). -/
def jsToLower (s : List Char) : List Char :=
  s.map Char.toLower

/-- JavaScript `String.prototype.includes`: substring containment. -/
def jsIncludes (hay needle : List Char) : Bool :=
  decide (needle <:+: hay)

/-- The filter predicate of the `filtered` memo (App.js lines 192-194):
`(n.title || '').toLowerCase().includes(q) || (n.content || '').toLowerCase().includes(q)`
(for a `string`-valued field, `s || ''` is `s`: it replaces only the empty
string with itself). -/
def matchesQuery (q : List Char) (n : Note) : Bool :=
  jsIncludes (jsToLower n.title.data) q || jsIncludes (jsToLower n.content.data) q

/-- The `filtered` memo (App.js lines 189-195): trim and lowercase the query;
an empty result (falsy `q`) means no filtering. -/
def filteredNotes (query : String) (notes : List Note) : List Note :=
  let q := jsToLower (jsTrim query.data)
  if q.isEmpty then notes else notes.filter (matchesQuery q)

/-- Case-insensitive substring containment, the matching notion of spec §4.1:
`needle` occurs in `hay` when both are lowercased. -/
def containsCI (hay needle : String) : Bool :=
  jsIncludes (jsToLower hay.data) (jsToLower needle.data)

/-- `toggleTheme` (App.js line 73): `(t) => (t === 'light' ? 'dark' : 'light')`. -/
def toggleTheme (theme : String) : String :=
  if theme = "light" then "dark" else "light"

/-- JavaScript `x?.id || null` on an optional list element: `undefined` and
the empty string are falsy and collapse to `null`. -/
def jsIdOrNull : Option String → Option String
  | some s => if s = "" then none else some s
  | none => none

/-- `handleDelete` (App.js lines 207-213) together with the `selected` memo
(lines 197-200): if no note matches `selectedId` nothing changes; otherwise
`nextIndex = Math.max(0, findIndex(selected.id) - 1)` (truncated `Nat`
subtraction is exactly `Math.max(0, i - 1)` for `i ≥ 0`), the note is
deleted, and the new selection is `remaining[nextIndex]?.id || null`.
Returns the new collection and the new `selectedId`. -/
def handleDelete (notes : List Note) (selectedId : Option String) : List Note × Option String :=
  match selectedId with
  | none => (notes, none)
  | some sid =>
    match notes.find? (fun n => n.id == sid) with
    | none => (notes, some sid)
    | some sel =>
      let nextIndex := notes.findIdx (fun n => n.id == sel.id) - 1
      let remaining := notes.filter (fun n => n.id != sel.id)
      (deleteNote notes sel.id, jsIdOrNull ((remaining[nextIndex]?).map Note.id))

/-- JSON values, the codomain of the platform JSON codec. -/
inductive Json where
  | null : Json
  | bool (b : Bool) : Json
  | num (n : Int) : Json
  | str (s : String) : Json
  | arr (elems : List Json) : Json
  | obj (fields : List (String × Json)) : Json

/-- Modelled from the spec: the platform JSON deserializer (`JSON.parse`),
a browser builtin that is not part of `src/`; the spec describes the
serialized form only as "a textual structured-data encoding".  The model
covers a fragment of JSON texts sufficient for the payloads considered
here — the well-formed texts `null`, `true`, `false`, `\x7b\x7d` (an empty
object) and `[]` parse to the corresponding values; every other string is
rejected (`JSON.parse` throws, modelled as `none`). -/
def jsonParseModel (s : String) : Option Json :=
  if s = "null" then some Json.null
  else if s = "true" then some (Json.bool true)
  else if s = "false" then some (Json.bool false)
  else if s = "\x7b\x7d" then some (Json.obj [])
  else if s = "[]" then some (Json.arr [])
  else none

/-- The read path of `useLocalStorage` (App.js lines 27-34):
`raw = localStorage.getItem(key); return raw ? JSON.parse(raw) : initialValue`
inside `try`, with `catch` returning `initialValue`.  The storage is a
partial map (`getItem` yields `null` for an absent key, modelled as `none`);
a falsy `raw` (absent key or empty string) yields the default; a parse
failure (the `catch` arm) yields the default; otherwise the parsed value is
returned — the shape of the parsed value is never inspected. -/
def loadRaw (parse : String → Option Json) (store : String → Option String)
    (key : String) (initialValue : Json) : Json :=
  match store key with
  | none => initialValue
  | some raw =>
    if raw = "" then initialValue
    else
      match parse raw with
      | some v => v
      | none => initialValue

/-- The in-memory application state together with the storage backend. -/
structure AppState where
  notes : List Note
  theme : String
  store : String → Option String

/-- A successful `localStorage.setItem key val`. -/
def writeStore (store : String → Option String) (key val : String) : String → Option String :=
  fun k => if k = key then some val else store k

/-- The write path of `useLocalStorage` (App.js lines 35-41):
`try { localStorage.setItem(key, JSON.stringify(state)) } catch { /* ignore */ }`.
Whether the underlying write succeeds (`writeOk`) is decided by the
environment (quota, backend availability); on failure the `catch` arm does
nothing, so the whole state — storage, notes and theme — is left as it was. -/
def saveEffect (writeOk : Bool) (s : AppState) (key val : String) : AppState :=
  if writeOk then { s with store := writeStore s.store key val } else s

/-- A store operation, with the environment inputs (generated id, clock)
recorded in the operation. -/
inductive Op where
  | create (id : String) (now : Nat) : Op
  | update (id : String) (patch : Patch) (now : Nat) : Op
  | delete (id : String) : Op
deriving DecidableEq, Repr

/-- Apply one operation to the collection. -/
def applyOp (notes : List Note) : Op → List Note
  | Op.create id now => (createNote notes id now).2
  | Op.update id patch now => updateNote notes id patch now
  | Op.delete id => deleteNote notes id

/-- The id-generation contract of spec §4.1 ("id generation must not collide
with existing ids"): along the trace, every `create` uses an id not already
present in the collection it is applied to. -/
def freshTrace : List Note → List Op → Bool
  | _, [] => true
  | notes, Op.create newId now :: rest =>
      !(decide (newId ∈ notes.map Note.id)) && freshTrace (applyOp notes (Op.create newId now)) rest
  | notes, Op.update i p now :: rest => freshTrace (applyOp notes (Op.update i p now)) rest
  | notes, Op.delete i :: rest => freshTrace (applyOp notes (Op.delete i)) rest

/-- All ids of the collection are pairwise distinct. -/
def NodupIds (notes : List Note) : Prop :=
  (notes.map Note.id).Nodup

instance (notes : List Note) : Decidable (NodupIds notes) := by
  unfold NodupIds; infer_instance

example : filteredNotes "  MiL  " [Note.mk "a" "Groceries" "Milk" 1 1, Note.mk "b" "Other" "x" 2 2]
    = [Note.mk "a" "Groceries" "Milk" 1 1] := by decide

example : filteredNotes "   " [Note.mk "a" "Groceries" "Milk" 1 1, Note.mk "b" "Other" "x" 2 2]
    = [Note.mk "a" "Groceries" "Milk" 1 1, Note.mk "b" "Other" "x" 2 2] := by decide

example : (handleDelete [Note.mk "c" "C" "" 3 3, Note.mk "b" "B" "" 2 2, Note.mk "a" "A" "" 1 1]
    (some "b")).2 = some "c" := by decide

/-- Claim C2: `create()` produces a note titled "Untitled" with empty content
and `createdAt = updatedAt = now`, prepends it to the front of the collection
leaving the existing notes unchanged in order, and returns the new note's id. -/
theorem createNote_spec (notes : List Note) (newId : String) (now : Nat) :
    (createNote notes newId now).1 = newId ∧
    (createNote notes newId now).2 = Note.mk newId "Untitled" "" now now :: notes ∧
    (Note.mk newId "Untitled" "" now now).createdAt = (Note.mk newId "Untitled" "" now now).updatedAt :=
  ⟨rfl, rfl, rfl⟩

/-- Claim C7: when the underlying storage write fails, the failure is
swallowed — `saveEffect` is a total function (nothing is thrown), and the
whole application state, in particular the in-memory note collection and the
theme, is unchanged. -/
theorem saveEffect_failure_swallowed (s : AppState) (key val : String) :
    saveEffect false s key val = s ∧
    (saveEffect false s key val).notes = s.notes ∧
    (saveEffect false s key val).theme = s.theme :=
  ⟨rfl, rfl, rfl⟩

/-- Claim C9: for every query, the filtered view is a subsequence of the full
collection — returned notes appear in the relative order they have in the
unfiltered collection. -/
theorem filteredNotes_sublist (query : String) (notes : List Note) :
    (filteredNotes query notes).Sublist notes := by
  unfold filteredNotes
  by_cases h : (jsToLower (jsTrim query.data)).isEmpty <;>
    simp [h, List.filter_sublist]

/-- Claim C10: `toggleTheme` maps `"light"` to `"dark"` and every other value
to `"light"`; hence one toggle always lands in the set containing `"light"`
and `"dark"`, and two toggles from a value of that set restore it. -/
theorem toggleTheme_spec :
    toggleTheme "light" = "dark" ∧
    (∀ t : String, t ≠ "light" → toggleTheme t = "light") ∧
    (∀ t : String, toggleTheme t = "light" ∨ toggleTheme t = "dark") ∧
    (∀ t : String, (t = "light" ∨ t = "dark") → toggleTheme (toggleTheme t) = t) := by
  refine ⟨rfl, ?_, ?_, ?_⟩
  · intro t ht; simp [toggleTheme, ht]
  · intro t; by_cases ht : t = "light" <;> simp [toggleTheme, ht]
  · rintro t (rfl | rfl) <;> rfl

/-- Witness for C10 at concrete inputs: toggling `"dark"` gives `"light"`,
and a double toggle from `"dark"` restores `"dark"`. -/
theorem toggleTheme_spec_witness :
    toggleTheme "dark" = "light" ∧ toggleTheme (toggleTheme "dark") = "dark" :=
  ⟨toggleTheme_spec.2.1 "dark" (by decide), toggleTheme_spec.2.2.2 "dark" (Or.inr rfl)⟩

/-- Claim C4: `updateNote` and `deleteNote` with an id that is not present
leave the collection exactly unchanged (silent no-op); `deleteNote` keeps
exactly the notes whose id differs from the deleted one, and it is
idempotent. -/
theorem missingId_noop_delete_exact
    (notes : List Note) (nid : String) (patch : Patch) (now : Nat)
    (h : nid ∉ notes.map Note.id) :
    updateNote notes nid patch now = notes ∧
    deleteNote notes nid = notes ∧
    (∀ (l : List Note) (i : String), deleteNote (deleteNote l i) i = deleteNote l i) ∧
    (∀ (l : List Note) (i : String) (n : Note), n ∈ deleteNote l i ↔ n ∈ l ∧ n.id ≠ i) := by
  have hne : ∀ n ∈ notes, n.id ≠ nid := by
    intro n hn hEq
    exact h (hEq ▸ List.mem_map_of_mem Note.id hn)
  refine ⟨?_, ?_, ?_, ?_⟩
  · unfold updateNote
    have h1 : notes.map (fun n => if n.id = nid then applyPatch n patch now else n)
        = notes.map id := List.map_congr_left (fun a ha => if_neg (hne a ha))
    rw [h1, List.map_id]
  · exact List.filter_eq_self.mpr (fun a ha => by simp [hne a ha])
  · intro l i
    show List.filter _ (List.filter _ l) = List.filter _ l
    rw [List.filter_filter]
    exact List.filter_congr (fun x _ => Bool.and_self _)
  · intro l i n
    simp [deleteNote, List.mem_filter]

/-- Witness for C4 at a concrete input: updating and deleting with the absent
id `"zz"` leave a one-note collection unchanged. -/
theorem missingId_noop_delete_exact_witness :
    updateNote [Note.mk "a" "T" "C" 1 2] "zz" (Patch.mk (some "N") none) 5 = [Note.mk "a" "T" "C" 1 2] ∧
    deleteNote [Note.mk "a" "T" "C" 1 2] "zz" = [Note.mk "a" "T" "C" 1 2] := by
  have h := missingId_noop_delete_exact [Note.mk "a" "T" "C" 1 2] "zz" (Patch.mk (some "N") none) 5 (by decide)
  exact ⟨h.1, h.2.1⟩

/-- Claim C5: when the trimmed query is empty the filtered view is the whole
collection in order; otherwise a note of the collection is in the filtered
view exactly when its title or its content contains the trimmed query as a
case-insensitive substring. -/
theorem filteredNotes_spec (query : String) (notes : List Note) :
    (jsTrim query.data = [] → filteredNotes query notes = notes) ∧
    (jsTrim query.data ≠ [] → ∀ n ∈ notes,
      (n ∈ filteredNotes query notes ↔
        (containsCI n.title (String.mk (jsTrim query.data)) = true ∨
         containsCI n.content (String.mk (jsTrim query.data)) = true))) := by
  constructor
  · intro h
    simp [filteredNotes, h, jsToLower]
  · intro h n hn
    have hq : (jsToLower (jsTrim query.data)).isEmpty = false := by
      simp [jsToLower, h]
    simp [filteredNotes, hq, List.mem_filter, hn, matchesQuery, containsCI]

/-- Witness for C5 at concrete inputs: searching `"  MiL  "` keeps the note
titled "Groceries" with content "Milk" (a case-insensitive content match),
and a whitespace-only query returns the collection unchanged. -/
theorem filteredNotes_spec_witness :
    Note.mk "a" "Groceries" "Milk" 1 1 ∈ filteredNotes "  MiL  " [Note.mk "a" "Groceries" "Milk" 1 1] ∧
    filteredNotes "   " [Note.mk "a" "Groceries" "Milk" 1 1] = [Note.mk "a" "Groceries" "Milk" 1 1] := by
  constructor
  · exact ((filteredNotes_spec "  MiL  " [Note.mk "a" "Groceries" "Milk" 1 1]).2 (by decide)
      (Note.mk "a" "Groceries" "Milk" 1 1) (by decide)).mpr (Or.inr (by decide))
  · exact (filteredNotes_spec "   " [Note.mk "a" "Groceries" "Milk" 1 1]).1 (by decide)

/-- In a collection with pairwise distinct ids, the notes on either side of
`b` all have ids different from `b.id`. -/
theorem nodupIds_split (l₁ l₂ : List Note) (b : Note)
    (h : NodupIds (l₁ ++ b :: l₂)) :
    (∀ n ∈ l₁, n.id ≠ b.id) ∧ (∀ n ∈ l₂, n.id ≠ b.id) := by
  unfold NodupIds at h
  rw [List.map_append, List.map_cons, List.nodup_append] at h
  obtain ⟨h₁, h₂, hdisj⟩ := h
  constructor
  · intro n hn hEq
    exact hdisj (List.mem_map_of_mem Note.id hn) (by simp [hEq])
  · intro n hn hEq
    rcases List.nodup_cons.mp h₂ with ⟨hb, _⟩
    exact hb (hEq ▸ List.mem_map_of_mem Note.id hn)

/-- Claim C3: updating the title of a present note (distinct ids, a clock
that has not run backwards past the note's creation) rewrites exactly that
note — new title, `updatedAt ≥ createdAt` — while its content, id and
`createdAt`, every other note, and the order of the collection are
unchanged. -/
theorem updateNote_title_frame
    (l₁ l₂ : List Note) (b : Note) (X : String) (now : Nat)
    (hnd : NodupIds (l₁ ++ b :: l₂))
    (hwf : b.createdAt ≤ b.updatedAt)
    (hclock : b.createdAt ≤ now) :
    ∃ b' : Note,
      updateNote (l₁ ++ b :: l₂) b.id (Patch.mk (some X) none) now = l₁ ++ b' :: l₂ ∧
      b'.title = X ∧ b'.createdAt ≤ b'.updatedAt ∧
      b'.content = b.content ∧ b'.id = b.id ∧ b'.createdAt = b.createdAt := by
  obtain ⟨h₁, h₂⟩ := nodupIds_split l₁ l₂ b hnd
  refine ⟨applyPatch b (Patch.mk (some X) none) now, ?_, rfl, hclock, rfl, rfl, rfl⟩
  have e₁ : l₁.map (fun n => if n.id = b.id then applyPatch n (Patch.mk (some X) none) now else n)
      = l₁.map id := List.map_congr_left (fun a ha => if_neg (h₁ a ha))
  have e₂ : l₂.map (fun n => if n.id = b.id then applyPatch n (Patch.mk (some X) none) now else n)
      = l₂.map id := List.map_congr_left (fun a ha => if_neg (h₂ a ha))
  unfold updateNote
  rw [List.map_append, List.map_cons, e₁, e₂, List.map_id, List.map_id, if_pos rfl]

/-- Witness for C3 at a concrete input: retitling the single note of a
collection to "X" keeps id, content and `createdAt` and keeps
`updatedAt ≥ createdAt`. -/
theorem updateNote_title_frame_witness :
    ∃ b' : Note,
      updateNote [Note.mk "b" "Old" "Body" 1 2] "b" (Patch.mk (some "X") none) 5 = [] ++ b' :: [] ∧
      b'.title = "X" ∧ b'.createdAt ≤ b'.updatedAt ∧
      b'.content = "Body" ∧ b'.id = "b" ∧ b'.createdAt = 1 :=
  updateNote_title_frame [] [] (Note.mk "b" "Old" "Body" 1 2) "X" 5 (by decide) (by decide) (by decide)

/-- `find?` locates `b` when nothing before it matches `b.id`. -/
theorem find_append_cons (l₁ l₂ : List Note) (b : Note)
    (h : ∀ n ∈ l₁, n.id ≠ b.id) :
    (l₁ ++ b :: l₂).find? (fun n => n.id == b.id) = some b := by
  induction l₁ with
  | nil => simp [List.find?_cons]
  | cons a t ih =>
    have ha : (a.id == b.id) = false := by
      simpa using h a (List.mem_cons_self a t)
    rw [List.cons_append, List.find?_cons, ha]
    exact ih (fun n hn => h n (List.mem_cons_of_mem a hn))

/-- `findIdx` locates `b` at position `l₁.length` when nothing before it
matches `b.id`. -/
theorem findIdx_append_cons (l₁ l₂ : List Note) (b : Note)
    (h : ∀ n ∈ l₁, n.id ≠ b.id) :
    (l₁ ++ b :: l₂).findIdx (fun n => n.id == b.id) = l₁.length := by
  induction l₁ with
  | nil => simp [List.findIdx_cons]
  | cons a t ih =>
    have ha : (a.id == b.id) = false := by
      simpa using h a (List.mem_cons_self a t)
    rw [List.cons_append, List.findIdx_cons, ha]
    simp [ih (fun n hn => h n (List.mem_cons_of_mem a hn))]

/-- Filtering away `b.id` removes exactly `b` when no other note carries its
id. -/
theorem filter_ne_append_cons (l₁ l₂ : List Note) (b : Note)
    (h₁ : ∀ n ∈ l₁, n.id ≠ b.id) (h₂ : ∀ n ∈ l₂, n.id ≠ b.id) :
    (l₁ ++ b :: l₂).filter (fun n => n.id != b.id) = l₁ ++ l₂ := by
  induction l₁ with
  | nil =>
    rw [List.nil_append, List.filter_cons, if_neg (by simp), List.nil_append]
    exact List.filter_eq_self.mpr (fun a ha => by simp [h₂ a ha])
  | cons a t ih =>
    have ha : (a.id != b.id) = true := by
      simpa using h₁ a (List.mem_cons_self a t)
    rw [List.cons_append, List.filter_cons, if_pos ha, ih (fun n hn => h₁ n (List.mem_cons_of_mem a hn))]
    rfl

/-- Claim C1: deleting the selected note, sitting at index `i = l₁.length` of
a collection with distinct, nonempty ids, yields the collection with exactly
that note removed; the new selection is the note that occupied position
`i - 1` of the unfiltered collection when `i ≥ 1`, the new first note when
`i = 0` and notes remain, and none when the collection becomes empty. -/
theorem handleDelete_selection
    (l₁ l₂ : List Note) (b : Note)
    (hnd : NodupIds (l₁ ++ b :: l₂))
    (hne : ∀ n ∈ l₁ ++ b :: l₂, n.id ≠ "") :
    (handleDelete (l₁ ++ b :: l₂) (some b.id)).1 = l₁ ++ l₂ ∧
    (0 < l₁.length →
      (handleDelete (l₁ ++ b :: l₂) (some b.id)).2 =
        ((l₁ ++ b :: l₂)[l₁.length - 1]?).map Note.id) ∧
    (l₁ = [] →
      (handleDelete (l₁ ++ b :: l₂) (some b.id)).2 = ((l₁ ++ l₂).head?).map Note.id) ∧
    (l₁ ++ l₂ = [] → (handleDelete (l₁ ++ b :: l₂) (some b.id)).2 = none) := by
  obtain ⟨h₁, h₂⟩ := nodupIds_split l₁ l₂ b hnd
  have hfind := find_append_cons l₁ l₂ b h₁
  have hidx := findIdx_append_cons l₁ l₂ b h₁
  have hfilter := filter_ne_append_cons l₁ l₂ b h₁ h₂
  have hD : handleDelete (l₁ ++ b :: l₂) (some b.id)
      = (l₁ ++ l₂, jsIdOrNull (((l₁ ++ l₂)[l₁.length - 1]?).map Note.id)) := by
    unfold handleDelete
    dsimp only
    rw [hfind]
    dsimp only
    unfold deleteNote
    rw [hidx, hfilter]
  refine ⟨by rw [hD], ?_, ?_, ?_⟩
  · intro hpos
    have hlt : l₁.length - 1 < l₁.length := Nat.sub_lt hpos Nat.one_pos
    rw [hD]
    simp only [List.getElem?_append_left hlt]
    rw [List.getElem?_eq_getElem hlt]
    have hx : l₁[l₁.length - 1].id ≠ "" :=
      hne _ (List.mem_append_left _ (List.getElem_mem hlt))
    simp [jsIdOrNull, hx]
  · intro hl₁
    subst hl₁
    rw [hD]
    cases l₂ with
    | nil => rfl
    | cons c t =>
      have hc : c.id ≠ "" := hne c (by simp)
      simp [jsIdOrNull, hc]
  · intro hempty
    rw [hD, hempty]
    rfl

/-- Witness for C1, the spec's scenario: in `[C, B, A]` with B (index 1)
selected, deleting B removes exactly B and selects C (index 0). -/
theorem handleDelete_selection_witness :
    (handleDelete [Note.mk "c" "C" "" 3 3, Note.mk "b" "B" "" 2 2, Note.mk "a" "A" "" 1 1]
      (some "b")).2 = some "c" ∧
    (handleDelete [Note.mk "c" "C" "" 3 3, Note.mk "b" "B" "" 2 2, Note.mk "a" "A" "" 1 1]
      (some "b")).1 = [Note.mk "c" "C" "" 3 3, Note.mk "a" "A" "" 1 1] := by
  have h := handleDelete_selection [Note.mk "c" "C" "" 3 3] [Note.mk "a" "A" "" 1 1]
      (Note.mk "b" "B" "" 2 2) (by decide) (by decide)
  constructor
  · have h2 := h.2.1 (by decide)
    simpa using h2
  · simpa using h.1

/-- `updateNote` never changes the sequence of ids. -/
theorem updateNote_map_id (notes : List Note) (nid : String) (patch : Patch) (now : Nat) :
    (updateNote notes nid patch now).map Note.id = notes.map Note.id := by
  unfold updateNote
  rw [List.map_map]
  apply List.map_congr_left
  intro a _
  by_cases h : a.id = nid <;> simp [Function.comp, applyPatch, h]

/-- One operation preserves distinctness of ids, provided a created id is
fresh. -/
theorem nodupIds_applyOp (notes : List Note) (op : Op)
    (h : NodupIds notes)
    (hfresh : ∀ nid now, op = Op.create nid now → nid ∉ notes.map Note.id) :
    NodupIds (applyOp notes op) := by
  cases op with
  | create nid now =>
    have hf := hfresh nid now rfl
    unfold NodupIds applyOp createNote
    refine List.nodup_cons.mpr ⟨?_, h⟩
    intro hmem
    exact hf (by simpa using hmem)
  | update i p now =>
    unfold NodupIds applyOp
    rw [updateNote_map_id]
    exact h
  | delete i =>
    unfold NodupIds applyOp deleteNote
    exact List.Nodup.sublist (List.Sublist.map Note.id (List.filter_sublist notes)) h

/-- Distinctness of ids is preserved along any trace whose created ids are
fresh. -/
theorem foldl_nodupIds (ops : List Op) :
    ∀ notes : List Note, NodupIds notes → freshTrace notes ops = true →
      NodupIds (List.foldl applyOp notes ops) := by
  induction ops with
  | nil =>
    intro notes h _
    simpa using h
  | cons op rest ih =>
    intro notes h hf
    rw [List.foldl_cons]
    cases op with
    | create nid now =>
      rw [freshTrace, Bool.and_eq_true] at hf
      obtain ⟨hfr, hrest⟩ := hf
      have hmem : nid ∉ notes.map Note.id := by simpa using hfr
      exact ih _ (nodupIds_applyOp notes _ h (by rintro _ _ ⟨rfl, rfl⟩; exact hmem)) hrest
    | update i p now =>
      rw [freshTrace] at hf
      exact ih _ (nodupIds_applyOp notes _ h (by rintro _ _ h'; cases h')) hf
    | delete i =>
      rw [freshTrace] at hf
      exact ih _ (nodupIds_applyOp notes _ h (by rintro _ _ h'; cases h')) hf

/-- Claim C8: after any sequence of create, update and delete operations
starting from the empty collection, in which every created id honours the
spec's id-generation contract (no collision with the ids then present), all
notes have pairwise distinct ids. -/
theorem reachable_ids_nodup (ops : List Op)
    (h : freshTrace [] ops = true) :
    NodupIds (List.foldl applyOp [] ops) :=
  foldl_nodupIds ops [] (by simp [NodupIds]) h

/-- Witness for C8 on a concrete trace: two creates, an update, a delete and
a create reusing the deleted id yield distinct ids. -/
theorem reachable_ids_nodup_witness :
    freshTrace [] [Op.create "a" 1, Op.create "b" 2,
      Op.update "a" (Patch.mk (some "t") none) 3, Op.delete "b", Op.create "b" 4] = true ∧
    NodupIds (List.foldl applyOp [] [Op.create "a" 1, Op.create "b" 2,
      Op.update "a" (Patch.mk (some "t") none) 3, Op.delete "b", Op.create "b" 4]) :=
  ⟨by decide, reachable_ids_nodup _ (by decide)⟩

/-- Counterexample to C6 as stated: the payload consisting of an empty JSON
object is a well-formed encoding whose shape is wrong (not a sequence of
note records), yet `load` under the notes key returns the parsed object
itself, not the empty-collection default — the shape of a successfully
parsed payload is never checked. -/
theorem loadRaw_wrong_shape_counterexample :
    loadRaw jsonParseModel
      (fun k => if k = "notes-app:notes" then some "\x7b\x7d" else none)
      "notes-app:notes" (Json.arr []) = Json.obj [] ∧
    Json.obj [] ≠ Json.arr [] := by
  constructor
  · rfl
  · intro h
    exact Json.noConfusion h

/-- Claim C6 amended: `load` returns the default when the key is absent,
when the stored payload is empty, or when the payload fails to deserialize
(`JSON.parse` throws); it never throws.  A payload that deserializes
successfully is returned as it parsed, without any shape validation. -/
theorem loadRaw_spec (parse : String → Option Json) (store : String → Option String)
    (key : String) (initialValue : Json) :
    ((store key = none ∨ store key = some "" ∨
        (∃ raw, store key = some raw ∧ parse raw = none)) →
      loadRaw parse store key initialValue = initialValue) ∧
    (∀ raw v, store key = some raw → raw ≠ "" → parse raw = some v →
      loadRaw parse store key initialValue = v) := by
  constructor
  · intro h
    unfold loadRaw
    rcases h with h | h | ⟨raw, hraw, hparse⟩
    · rw [h]
    · rw [h]
      simp
    · rw [hraw]
      by_cases he : raw = ""
      · simp [he]
      · simp [he, hparse]
  · intro raw v hraw hne hparse
    unfold loadRaw
    rw [hraw]
    simp [hne, hparse]

/-- Witness for the amended C6 at concrete inputs: a syntactically malformed
payload under the notes key falls back to the empty collection, and so does
an absent key. -/
theorem loadRaw_spec_witness :
    loadRaw jsonParseModel (fun k => if k = "notes-app:notes" then some "corrupt" else none)
      "notes-app:notes" (Json.arr []) = Json.arr [] ∧
    loadRaw jsonParseModel (fun _ => none) "notes-app:notes" (Json.arr []) = Json.arr [] := by
  constructor
  · exact (loadRaw_spec jsonParseModel _ "notes-app:notes" (Json.arr [])).1
      (Or.inr (Or.inr ⟨"corrupt", by simp, rfl⟩))
  · exact (loadRaw_spec jsonParseModel (fun _ => none) "notes-app:notes" (Json.arr [])).1 (Or.inl rfl)
